import Mathlib

/-!
Verification of the command-gateway / draft-commit subsystem of the
notion-agent repository.

Embedded components (each definition mirrors the named source function):

* shell executor (`src/agents/utils/shell-executor.ts`): `stripQuotes`,
  `createCommandExecutor` (verb sorting by descending length, prefix match,
  argument extraction);
* notion skill module (`src/skills/notion/index.ts`, the agent-fs based
  version): `scanSkills`, `validateSkillContent`, `draftSkill`,
  `commitSkill`, `discardDraft`, `readDraft` and the `notion read` /
  `notion show-draft` handlers;
* datasource store (`src/skills/notion/utils/datasource-store.ts`):
  `saveDatasource`, `readDatasources`, `listDatasourceNames`;
* storage abstraction (`src/lib/agent-fs`): backend selection
  (`getAgentFS`) and the GitHub backend's error behaviour (`writeFile`,
  `remove`);
* podcast skill (`src/skills/podcast/index.ts`): the `podcast save`
  two-argument regex parse.

Modelling conventions:

* JS strings are Lean `String`s; character-level operations work on the
  `List Char` of the string (ASCII inputs, so UTF-16 units = code points).
  JS `trim` is modelled with `Char.isWhitespace`.
* Storage paths are lists of `/`-separated segments; artifact and
  directory names are single segments.  The storage state is an ordered
  association list of (path, content) files; directories are implicit
  (exactly the remote backend's semantics, and the local backend's
  semantics on the states reachable through the skill workflow, which
  never relies on empty directories).
* The external `@iarna/toml` serialization is modelled as an opaque
  invertible blob (`FileContent.schema`): `TOML.stringify` produces it,
  `TOML.parse` recovers the record from it and fails on plain text.  The
  external `gray-matter` frontmatter parser is modelled by a direct
  `key: value` block parser (`matterSplit`), per the repository's
  persisted artifact format; YAML scalars are kept as strings.
* Async handlers are modelled as pure state-passing functions; mutating
  skill operations additionally return the ordered list of storage
  operations (`FsOp`) they perform, so that ordering / zero-write claims
  are expressible.
-/

namespace NotionAgent

/-! ## String utilities (shell-executor.ts) -/

/-- Model of JS `String.prototype.trim` on the character list. -/
def trimCL (l : List Char) : List Char :=
  ((l.dropWhile Char.isWhitespace).reverse.dropWhile Char.isWhitespace).reverse

/-- JS `str.trim()` as a `String` operation. -/
def strTrim (s : String) : String :=
  String.mk (trimCL s.data)

/-- Prefix test on character lists (JS `startsWith`). -/
def isPrefixCL : List Char → List Char → Bool
  | [], _ => true
  | _ :: _, [] => false
  | c :: cs, x :: xs => if c = x then isPrefixCL cs xs else false

/-- JS `str.slice(n)` on ASCII strings. -/
def strDrop (s : String) (n : Nat) : String :=
  String.mk (s.data.drop n)

/-- JS `toLowerCase` on ASCII strings. -/
def strToLower (s : String) : String :=
  String.mk (s.data.map Char.toLower)

/-- The condition of `stripQuotes`: the trimmed string starts and ends with
`"` or starts and ends with `'`. -/
def quotedCond (t : List Char) : Prop :=
  (t.head? = some '"' ∧ t.getLast? = some '"') ∨
    (t.head? = some '\'' ∧ t.getLast? = some '\'')

instance (t : List Char) : Decidable (quotedCond t) := by
  unfold quotedCond
  infer_instance

/-- `stripQuotes` from shell-executor.ts: trim, then if the result starts
and ends with the same quote character, `slice(1, -1)`; otherwise return
the trimmed string. -/
def stripQuotes (str : String) : String :=
  if quotedCond (trimCL str.data) then
    String.mk (trimCL str.data).tail.dropLast
  else String.mk (trimCL str.data)

/-! ## Command executor (createCommandExecutor) -/

/-- Handler type of the executor (output modelled as the response string). -/
def CommandHandler : Type := String → String

/-- Stable insertion step for sorting by a numeric key in descending
order.  JS `Array.prototype.sort` with comparator `(a, b) => key(b) -
key(a)` is a stable descending sort; a stable sort by a total preorder has
a unique result, so this model produces exactly the source's order. -/
def insertDesc {α : Type} (key : α → Nat) (x : α) : List α → List α
  | [] => [x]
  | y :: ys => if key y ≤ key x then x :: y :: ys else y :: insertDesc key x ys

/-- Stable descending sort by a numeric key (model of the executor's
`sort((a, b) => b.length - a.length)`). -/
def sortDesc {α : Type} (key : α → Nat) (l : List α) : List α :=
  l.foldr (insertDesc key) []

/-- Does the registered verb `cmd` match the input line?  Source: `trimmed
=== cmd || trimmed.startsWith(cmd + ' ')`. -/
def verbMatches (input cmd : String) : Bool :=
  (strTrim input == cmd) || isPrefixCL (cmd ++ " ").data (strTrim input).data

/-- The argument string passed to the selected handler.  Source:
`stripQuotes(trimmed.slice(cmd.length).trim())`. -/
def execArgs (cmd input : String) : String :=
  stripQuotes (strTrim (strDrop (strTrim input) cmd.length))

/-- Scan of the length-sorted registry: the first registered entry whose
verb matches the input line. -/
def findMatch (commands : List (String × CommandHandler)) (input : String) :
    Option (String × CommandHandler) :=
  (sortDesc (fun p => p.1.length) commands).find? (fun p => verbMatches input p.1)

/-- `createCommandExecutor`: dispatch the input line to the handler of the
first matching verb in the length-sorted registry, passing the
quote-stripped remainder; otherwise return the unknown-command message
listing every registered verb. -/
def executeCommand (commands : List (String × CommandHandler)) (input : String) :
    String :=
  match findMatch commands input with
  | some p => p.2 (execArgs p.1 input)
  | none =>
      "Error: Unknown command. Available commands: " ++
        String.intercalate ", " (commands.map (fun p => p.1))

/-- Verb selection on the bare verb list (the registry's keys). -/
def findVerb (verbs : List String) (input : String) : Option String :=
  (sortDesc (fun v => v.length) verbs).find? (fun c => verbMatches input c)

/-! ## Podcast save parse (src/skills/podcast/index.ts) -/

/-- The regex of the `podcast save` handler,
`^"([^"]+)"\s+"([^"]+)"$`, on the character list: a quoted nonempty
quote-free span, one or more whitespace characters, a second quoted
nonempty quote-free span, end of input. -/
def saveParseCore (l : List Char) : Option (List Char × List Char) :=
  match l with
  | '"' :: rest =>
    let name := rest.takeWhile (fun c => c != '"')
    if name.isEmpty then none
    else
      match rest.dropWhile (fun c => c != '"') with
      | '"' :: rest2 =>
        if (rest2.takeWhile Char.isWhitespace).isEmpty then none
        else
          match rest2.dropWhile Char.isWhitespace with
          | '"' :: rest3 =>
            let url := rest3.takeWhile (fun c => c != '"')
            if url.isEmpty then none
            else
              match rest3.dropWhile (fun c => c != '"') with
              | ['"'] => some (name, url)
              | _ => none
          | _ => none
      | _ => none
  | _ => none

/-- `args.match(/^"([^"]+)"\s+"([^"]+)"$/)` of the `podcast save`
handler, returning the two captured groups. -/
def podcastSaveParse (args : String) : Option (String × String) :=
  (saveParseCore args.data).map (fun p => (String.mk p.1, String.mk p.2))

/-- The `podcast save` handler's argument handling: empty args and failed
parses return the usage errors of the source; on a successful parse the
handler proceeds to the save (duplicate check and store append are
external I/O, summarised by the success message). -/
def podcastSaveCmd (args : String) : String :=
  if args = "" then "Error: Usage: podcast save \"<name>\" \"<feedUrl>\""
  else
    match podcastSaveParse args with
    | none =>
        "Error: Usage: podcast save \"<name>\" \"<feedUrl>\". Both name and URL must be quoted."
    | some p => "Saved \"" ++ p.1 ++ "\" to podcasts.toml"

/-- The verbs registered by `createPodcastCommands`, in insertion order. -/
def podcastVerbs : List String :=
  ["podcast help", "podcast list", "podcast search", "podcast save",
   "podcast check", "podcast recommend"]

/-! ## Frontmatter (gray-matter model) -/

/-- Split a character list into its newline-separated lines. -/
def splitLines : List Char → List (List Char)
  | [] => [[]]
  | c :: cs =>
    match splitLines cs with
    | [] => [[]]
    | h :: t => if c = '\n' then [] :: h :: t else (c :: h) :: t

/-- Join lines back with newlines. -/
def joinLines (ls : List (List Char)) : List Char :=
  (ls.intersperse ['\n']).flatten

/-- Split a line at its first `": "` occurrence: key and value. -/
def splitFirstColonSpace : List Char → Option (List Char × List Char)
  | [] => none
  | ':' :: ' ' :: rest => some ([], rest)
  | c :: rest => (splitFirstColonSpace rest).map (fun p => (c :: p.1, p.2))

/-- Parse one `key: value` line of the metadata block. -/
def parseFieldLine (line : List Char) : Option (String × String) :=
  (splitFirstColonSpace line).map (fun p => (String.mk p.1, String.mk p.2))

/-- Split the lines after the opening delimiter at the closing `---`
line: metadata lines and body lines. -/
def splitAtCloseDelim : List (List Char) → Option (List (List Char) × List (List Char))
  | [] => none
  | l :: ls =>
    if l = ['-', '-', '-'] then some ([], ls)
    else (splitAtCloseDelim ls).map (fun p => (l :: p.1, p.2))

/-- Model of `matter(content)`: metadata fields and body.  Content without
a leading `---` line, or without a closing delimiter, has no metadata and
is all body. -/
def matterSplitCore (l : List Char) : List (String × String) × List Char :=
  match splitLines l with
  | [] => ([], l)
  | first :: rest =>
    if first = ['-', '-', '-'] then
      match splitAtCloseDelim rest with
      | some p => (p.1.filterMap parseFieldLine, joinLines p.2)
      | none => ([], l)
    else ([], l)

/-- The metadata fields of `matter(content).data`. -/
def matterData (s : String) : List (String × String) :=
  (matterSplitCore s.data).1

/-- The body `matter(content).content`. -/
def matterBody (s : String) : String :=
  String.mk (matterSplitCore s.data).2

/-- Field lookup in the metadata block. -/
def fieldVal (fields : List (String × String)) (key : String) : Option String :=
  (fields.find? (fun kv => kv.1 == key)).map (fun kv => kv.2)

/-- JS truthiness of `data.key`: present with a non-empty value. -/
def fieldTruthy (fields : List (String × String)) (key : String) : Bool :=
  match fieldVal fields key with
  | some v => v != ""
  | none => false

/-! ## Datasource records and file contents -/

/-- One property of a datasource schema. -/
structure DatasourceProperty where
  type : String
  options : List String
deriving DecidableEq

/-- A cached datasource record (datasource-store.ts). -/
structure Datasource where
  name : String
  id : String
  properties : List (String × DatasourceProperty)
deriving DecidableEq

/-- Rendering of a serialized schema blob to text (never empty). -/
def tomlStr (d : Datasource) : String :=
  "name = \"" ++ d.name ++ "\"\nid = \"" ++ d.id ++ "\"\n" ++
    String.intercalate "\n"
      (d.properties.map (fun p => "prop " ++ p.1 ++ " : " ++ p.2.type))

/-- Content of a stored file: free text (SKILL.md, drafts) or a
serialized datasource schema (schema.toml); the TOML codec is modelled as
opaque and invertible. -/
inductive FileContent where
  | text (s : String)
  | schema (d : Datasource)
deriving DecidableEq

/-- The text a reader sees for a stored file. -/
def FileContent.render : FileContent → String
  | .text s => s
  | .schema d => tomlStr d

/-- Model of `TOML.parse` composed with the schema shape: succeeds exactly
on serialized schema blobs. -/
def tomlParseFC : FileContent → Option Datasource
  | .schema d => some d
  | .text _ => none

/-! ## Storage abstraction state (agent-fs) -/

/-- A storage path, as `/`-separated segments relative to the working
root. -/
abbrev Path : Type := List String

/-- The storage state: the stored files in creation order. -/
abbrev FS : Type := List (Path × FileContent)

/-- `readFile`: content of the file at `p`, `none` if absent. -/
def fsReadFile : FS → Path → Option FileContent
  | [], _ => none
  | f :: σ, p => if f.1 = p then some f.2 else fsReadFile σ p

/-- `readFile` as the string the JS caller receives. -/
def fsReadString (σ : FS) (p : Path) : Option String :=
  (fsReadFile σ p).map FileContent.render

/-- `writeFile`: replace the file at `p` in place, or append a new file
(parent directories implicit). -/
def fsWriteFile : FS → Path → FileContent → FS
  | [], p, c => [(p, c)]
  | f :: σ, p, c => if f.1 = p then (p, c) :: σ else f :: fsWriteFile σ p c

/-- Is `dir` a strict ancestor prefix of path `p`? -/
def pathUnder : Path → Path → Bool
  | [], [] => false
  | [], _ :: _ => true
  | _ :: _, [] => false
  | d :: ds, x :: xs => if d = x then pathUnder ds xs else false

/-- `remove`: delete the file at `p` and (recursively) every file below
`p`; removing something absent is a no-op. -/
def fsRemove : FS → Path → FS
  | [], _ => []
  | f :: σ, p =>
    if f.1 = p ∨ pathUnder p f.1 then fsRemove σ p else f :: fsRemove σ p

/-- `exists`: a file at `p`, or a directory at `p` implied by a deeper
file. -/
def fsExists (σ : FS) (p : Path) : Bool :=
  σ.any (fun f => decide (f.1 = p) || pathUnder p f.1)

/-- The immediate child segment of `p` below directory `dir`, if any. -/
def childOf : Path → Path → Option String
  | [], [] => none
  | [], x :: _ => some x
  | _ :: _, [] => none
  | d :: ds, x :: xs => if d = x then childOf ds xs else none

/-- First-occurrence deduplication of a name list. -/
def dedupFirst (l : List String) : List String :=
  l.foldl (fun acc x => if x ∈ acc then acc else acc ++ [x]) []

/-- Is there a file strictly below `p` (so `p` denotes a directory)? -/
def fsIsDir (σ : FS) (p : Path) : Bool :=
  σ.any (fun f => pathUnder p f.1)

/-- One entry of `readDir`. -/
structure DirEntry where
  name : String
  isDirectory : Bool
deriving DecidableEq

/-- `readDir`: the distinct immediate children of `dir`, each flagged as
directory when deeper content exists. -/
def fsReadDir (σ : FS) (dir : Path) : List DirEntry :=
  (dedupFirst (σ.filterMap (fun f => childOf dir f.1))).map
    (fun c => ⟨c, fsIsDir σ (dir ++ [c])⟩)

/-! ## Datasource store (datasource-store.ts) -/

/-- `DATASOURCES_BASE = 'notion/datasources'`. -/
def dsBase : Path := ["notion", "datasources"]

/-- `getDatasourcePath(name)`. -/
def datasourcePath (name : String) : Path := dsBase ++ [name]

/-- `getSchemaPath(name)`. -/
def schemaPath (name : String) : Path := datasourcePath name ++ ["schema.toml"]

/-- `getSkillPath(name)`. -/
def skillPath (name : String) : Path := datasourcePath name ++ ["SKILL.md"]

/-- `getDraftsDir()`. -/
def draftsDir : Path := dsBase ++ ["_drafts"]

/-- The draft directory of one artifact name. -/
def draftDirOf (name : String) : Path := draftsDir ++ [name]

/-- The draft SKILL.md file of one artifact name. -/
def draftFile (name : String) : Path := draftDirOf name ++ ["SKILL.md"]

/-- `readDatasourceSchema`: read and parse one schema.toml, `none` when
absent, empty, or unparsable. -/
def readDatasourceSchema (σ : FS) (name : String) : Option Datasource :=
  match fsReadFile σ (schemaPath name) with
  | none => none
  | some c => if c.render = "" then none else tomlParseFC c

/-- `readDatasources` (the cache's `readAll()`): scan every datasource
directory except `_drafts`, keeping the parsable schemas. -/
def readDatasources (σ : FS) : List Datasource :=
  (fsReadDir σ dsBase).filterMap (fun e =>
    if e.isDirectory ∧ e.name ≠ "_drafts" then readDatasourceSchema σ e.name
    else none)

/-- `saveDatasource`: write the serialized record to
`<name>/schema.toml`, reporting created or updated. -/
def saveDatasource (σ : FS) (d : Datasource) : FS × String :=
  (fsWriteFile σ (schemaPath d.name) (.schema d),
    if fsExists σ (schemaPath d.name) then
      "Updated existing datasource: " ++ d.name
    else "Saved new datasource: " ++ d.name)

/-- `listDatasourceNames`: directory entries of the base, excluding
`_drafts`. -/
def listDatasourceNames (σ : FS) : List String :=
  ((fsReadDir σ dsBase).filter
      (fun e => e.isDirectory ∧ e.name ≠ "_drafts")).map (fun e => e.name)

/-! ## Notion skill module (src/skills/notion/index.ts) -/

/-- Metadata of one scanned skill. -/
structure SkillMetadata where
  name : String
  description : String
deriving DecidableEq

/-- `scanSkills`: for each datasource directory, read its SKILL.md and
keep it when the metadata block has truthy `name` and `description`. -/
def scanSkills (σ : FS) : List SkillMetadata :=
  (listDatasourceNames σ).filterMap (fun nm =>
    match fsReadString σ (skillPath nm) with
    | none => none
    | some raw =>
      if raw = "" then none
      else
        let fields := matterData raw
        if fieldTruthy fields "name" && fieldTruthy fields "description" then
          some ⟨(fieldVal fields "name").getD "",
                (fieldVal fields "description").getD ""⟩
        else none)

/-- Result record of the mutating skill operations. -/
structure SkillWriteResult where
  success : Bool
  message : String
deriving DecidableEq

/-- `validateSkillContent`: the metadata block must contain truthy `name`
and `description` fields; returns the error text, or `none` when valid. -/
def validateSkillContent (content : String) : Option String :=
  let fields := matterData content
  if !fieldTruthy fields "name" then
    some "Missing required frontmatter field: name"
  else if !fieldTruthy fields "description" then
    some "Missing required frontmatter field: description"
  else none

/-- One storage operation performed by a skill lifecycle function. -/
inductive FsOp where
  | write (p : Path) (c : FileContent)
  | remove (p : Path)
deriving DecidableEq

/-- Apply one storage operation to the state. -/
def applyOp (σ : FS) : FsOp → FS
  | .write p c => fsWriteFile σ p c
  | .remove p => fsRemove σ p

/-- Apply a list of storage operations in order. -/
def applyOps (σ : FS) (ops : List FsOp) : FS :=
  ops.foldl applyOp σ

/-- `draftSkill` (stage): validate, then write the content verbatim to
the draft location; on validation failure, no write happens.  Returns the
new state, the ordered storage operations performed, and the result. -/
def draftSkill (σ : FS) (name content : String) :
    FS × List FsOp × SkillWriteResult :=
  match validateSkillContent content with
  | some err => (σ, [], ⟨false, "Error: " ++ err⟩)
  | none =>
    let ops := [FsOp.write (draftFile name) (.text content)]
    (applyOps σ ops, ops,
      ⟨true, "Draft saved for \"" ++ name ++ "\". Use 'notion show-draft \"" ++
         name ++ "\"' to review."⟩)

/-- `commitSkill`: read the draft (a falsy read — absent or empty — is
"no draft found"), write it to the active location, then remove the draft
directory. -/
def commitSkill (σ : FS) (name : String) : FS × List FsOp × SkillWriteResult :=
  match fsReadString σ (draftFile name) with
  | none =>
    (σ, [], ⟨false, "Error: No draft found for \"" ++ name ++
       "\". Use 'notion draft' first."⟩)
  | some content =>
    if content = "" then
      (σ, [], ⟨false, "Error: No draft found for \"" ++ name ++
         "\". Use 'notion draft' first."⟩)
    else
      let ops := [FsOp.write (skillPath name) (.text content),
                  FsOp.remove (draftDirOf name)]
      (applyOps σ ops, ops,
        ⟨true, "Skill \"" ++ name ++ "\" committed successfully."⟩)

/-- `discardDraft`: delete the draft directory if it exists. -/
def discardDraft (σ : FS) (name : String) : FS × List FsOp × SkillWriteResult :=
  if fsExists σ (draftDirOf name) then
    (fsRemove σ (draftDirOf name), [FsOp.remove (draftDirOf name)],
      ⟨true, "Draft \"" ++ name ++ "\" discarded."⟩)
  else (σ, [], ⟨false, "Error: No draft found for \"" ++ name ++ "\"."⟩)

/-- `readDraft`: the draft content, `none` when absent. -/
def readDraft (σ : FS) (name : String) : Option String :=
  fsReadString σ (draftFile name)

/-- The `notion read` handler: look the artifact up case-insensitively
among the scanned skills by metadata name, and return its body with the
metadata block stripped and trimmed. -/
def notionReadCmd (σ : FS) (name : String) : String :=
  if name = "" then "Error: Usage: notion read <name>"
  else
    match (scanSkills σ).find? (fun s => strToLower s.name == strToLower name) with
    | none =>
      let avail := String.intercalate ", " ((scanSkills σ).map (fun s => s.name))
      "Error: Skill \"" ++ name ++ "\" not found. Available: " ++
        (if avail = "" then "none" else avail)
    | some skill =>
      match fsReadString σ (skillPath skill.name) with
      | none => "Error: Skill file not found for \"" ++ name ++ "\"."
      | some raw =>
        if raw = "" then "Error: Skill file not found for \"" ++ name ++ "\"."
        else strTrim (matterBody raw)

/-- The `notion show-draft` handler (peek): the draft content verbatim, or
the no-draft error on a falsy read. -/
def showDraftCmd (σ : FS) (name : String) : String :=
  if name = "" then "Error: Usage: notion show-draft \"<name>\""
  else
    match readDraft σ name with
    | none => "Error: No draft found for \"" ++ name ++ "\"."
    | some content =>
      if content = "" then "Error: No draft found for \"" ++ name ++ "\"."
      else content

/-! ## Backend selection (src/lib/agent-fs/index.ts) -/

/-- The environment variables consulted by the backend selection. -/
structure Env where
  vercel : Option String
  githubToken : Option String
  githubRepo : Option String

/-- JS truthiness of an environment variable (`undefined` and the empty
string are falsy). -/
def envTruthy : Option String → Bool
  | none => false
  | some s => s != ""

/-- The two storage backends. -/
inductive Backend where
  | localFS
  | githubFS
deriving DecidableEq

/-- `isVercelWithGitHub()`: `!!(process.env.VERCEL &&
process.env.GITHUB_TOKEN && process.env.GITHUB_REPO)`. -/
def isVercelWithGitHub (e : Env) : Bool :=
  envTruthy e.vercel && envTruthy e.githubToken && envTruthy e.githubRepo

/-- `getAgentFS()`: GitHub backend when all three variables are truthy,
local backend otherwise. -/
def getAgentFS (e : Env) : Backend :=
  if isVercelWithGitHub e then .githubFS else .localFS

/-- `getConfig()` of the GitHub backend: throws when the token or repo is
missing, and on a malformed repo identifier. -/
def getConfig (e : Env) : Except String (String × String × String) :=
  if !envTruthy e.githubToken || !envTruthy e.githubRepo then
    .error "GitHub credentials not configured (GITHUB_TOKEN, GITHUB_REPO)"
  else
    let repo := e.githubRepo.getD ""
    match repo.splitOn "/" with
    | [] => .error ("Invalid GITHUB_REPO format: " ++ repo ++ ". Expected \"owner/repo\"")
    | [_] => .error ("Invalid GITHUB_REPO format: " ++ repo ++ ". Expected \"owner/repo\"")
    | owner :: repoName :: _ =>
      if owner = "" then
        .error ("Invalid GITHUB_REPO format: " ++ repo ++ ". Expected \"owner/repo\"")
      else .ok (e.githubToken.getD "", owner, repoName)

/-! ## GitHub backend error behaviour (src/lib/agent-fs/github.ts) -/

/-- Result of `octokit.rest.repos.getContent`. -/
inductive GhData where
  | file (sha : String)
  | dir (items : List String)

/-- Oracle for the GitHub API calls made by the backend; each call either
succeeds or rejects with an error. -/
structure GhApi where
  getContent : String → Except String GhData
  deleteFile : String → String → Except String Unit
  createOrUpdate : String → Option String → String → Except String Unit
  branchOk : Except String Unit

/-- `githubFS.writeFile`: ensure the branch, read the current sha inside
a try/catch (any failure means no sha), then call
`createOrUpdateFileContents` with no surrounding catch — its rejection
propagates. -/
def ghWriteFile (api : GhApi) (path content : String) : Except String Unit := do
  api.branchOk
  let sha? : Option String :=
    match api.getContent path with
    | .ok (.file sha) => some sha
    | _ => none
  api.createOrUpdate path sha? content

/-- `githubFS.remove`: the whole body — content lookup, recursive
directory descent, and the `deleteFile` call — is wrapped in one
`try { ... } catch { /* nothing to delete */ }`, so every failure is
swallowed.  Recursion depth is bounded by `fuel` (source recursion
descends into strictly longer paths of a finite listing). -/
def ghRemove (api : GhApi) : Nat → String → Except String Unit
  | 0, _ => .ok ()
  | fuel + 1, path =>
    let body : Except String Unit :=
      match api.getContent path with
      | .error e => .error e
      | .ok (.dir items) =>
        items.forM (fun it => ghRemove api fuel (path ++ "/" ++ it))
      | .ok (.file sha) => api.deleteFile path sha
    match body with
    | .ok _ => .ok ()
    | .error _ => .ok ()

/-- A concrete API oracle: the target path is a file, and the delete call
rejects. -/
def badDeleteApi : GhApi where
  getContent := fun _ => .ok (.file "sha-1")
  deleteFile := fun _ _ => .error "GitHub API failure during deleteFile"
  createOrUpdate := fun _ _ _ => .ok ()
  branchOk := .ok ()

/-! ## Lemmas about the stable descending sort -/

theorem mem_insertDesc {α : Type} (key : α → Nat) (x a : α) (l : List α) :
    a ∈ insertDesc key x l ↔ a = x ∨ a ∈ l := by
  induction l with
  | nil => simp [insertDesc]
  | cons y ys ih =>
    by_cases h : key y ≤ key x
    · simp [insertDesc, h]
    · simp [insertDesc, h, ih]
      tauto

theorem mem_sortDesc {α : Type} (key : α → Nat) (l : List α) (a : α) :
    a ∈ sortDesc key l ↔ a ∈ l := by
  induction l with
  | nil => simp [sortDesc]
  | cons x xs ih =>
    show a ∈ insertDesc key x (sortDesc key xs) ↔ _
    rw [mem_insertDesc]
    simp [ih]

theorem pairwise_insertDesc {α : Type} (key : α → Nat) (x : α) (l : List α)
    (h : l.Pairwise (fun a b => key b ≤ key a)) :
    (insertDesc key x l).Pairwise (fun a b => key b ≤ key a) := by
  induction l with
  | nil => simp [insertDesc]
  | cons y ys ih =>
    rcases List.pairwise_cons.mp h with ⟨hy, hys⟩
    by_cases hc : key y ≤ key x
    · rw [insertDesc, if_pos hc]
      refine List.pairwise_cons.mpr ⟨?_, h⟩
      intro z hz
      rcases List.mem_cons.mp hz with rfl | hz'
      · exact hc
      · exact Nat.le_trans (hy z hz') hc
    · rw [insertDesc, if_neg hc]
      refine List.pairwise_cons.mpr ⟨?_, ih hys⟩
      intro z hz
      rcases (mem_insertDesc key x z ys).mp hz with rfl | hz'
      · omega
      · exact hy z hz'

theorem pairwise_sortDesc {α : Type} (key : α → Nat) (l : List α) :
    (sortDesc key l).Pairwise (fun a b => key b ≤ key a) := by
  induction l with
  | nil => simp [sortDesc]
  | cons x xs ih => exact pairwise_insertDesc key x (sortDesc key xs) ih

theorem find?_pairwise_max {α : Type} (key : α → Nat) (pred : α → Bool) :
    ∀ l : List α, l.Pairwise (fun a b => key b ≤ key a) →
      ∀ p, l.find? pred = some p → ∀ q ∈ l, pred q = true → key q ≤ key p := by
  intro l
  induction l with
  | nil => intro _ p hp; simp at hp
  | cons x xs ih =>
    intro hpw p hp q hq hpred
    rcases List.pairwise_cons.mp hpw with ⟨hx, hxs⟩
    cases hpx : pred x with
    | true =>
      rw [List.find?_cons_of_pos _ hpx] at hp
      injection hp with hp
      subst hp
      rcases List.mem_cons.mp hq with rfl | hq'
      · exact Nat.le_refl _
      · exact hx q hq'
    | false =>
      rw [List.find?_cons_of_neg _ (by simp [hpx])] at hp
      rcases List.mem_cons.mp hq with rfl | hq'
      · rw [hpx] at hpred; cases hpred
      · exact ih hxs p hp q hq' hpred

/-! ## Claim C8: longest matching verb wins -/

/-- Claim C8: for every registered command map and every input line, when
the executor dispatches (the scan of the length-sorted registry selects an
entry `p`), every other registered entry `q` whose verb also matches the
line has a verb no longer than `p`'s — the longest matching verb-prefix
wins. -/
theorem c8_longest_verb_wins (commands : List (String × CommandHandler))
    (input : String) (p : String × CommandHandler)
    (hp : findMatch commands input = some p)
    (q : String × CommandHandler) (hq : q ∈ commands)
    (hm : verbMatches input q.1 = true) :
    q.1.length ≤ p.1.length := by
  have hpw := pairwise_sortDesc (fun r : String × CommandHandler => r.1.length) commands
  have hq' : q ∈ sortDesc (fun r : String × CommandHandler => r.1.length) commands :=
    (mem_sortDesc _ _ _).mpr hq
  exact find?_pairwise_max (fun r : String × CommandHandler => r.1.length)
    (fun r => verbMatches input r.1) _ hpw p hp q hq' hm

/-- Witness for C8: with both `"a b"` and `"a b c"` registered, the input
`"a b c d"` matches both; the executor selects `"a b c"` and the shorter
matching verb is bounded by it.  The routing example of the claim is also
checked: a registry with `"skill show"` and `"skill show-draft"` routes
`"skill show-draft x"` to the `"skill show-draft"` handler. -/
theorem c8_witness :
    ("a b" : String).length ≤ ("a b c" : String).length ∧
    executeCommand
      [("skill show", fun a => "SHOW:" ++ a), ("skill show-draft", fun a => "DRAFT:" ++ a)]
      "skill show-draft x" = "DRAFT:x" := by
  constructor
  · exact c8_longest_verb_wins
      [("a b c", fun s => "C:" ++ s), ("a b", fun s => "B:" ++ s)] "a b c d"
      ("a b c", fun s => "C:" ++ s) (by rfl)
      ("a b", fun s => "B:" ++ s) (List.mem_cons_of_mem _ (List.mem_cons_self _ _))
      (by rfl)
  · rfl

/-! ## Claim C7: quote stripping -/

/-- Claim C7 counterexample: the claim states that a string consisting of
a single quote character (length 1) is not stripped; in the source,
`stripQuotes('"')` takes the stripping branch (the single character both
starts and ends the string) and `slice(1, -1)` yields the empty string, a
changed value. -/
theorem c7_counterexample :
    stripQuotes "\"" = "" ∧ ("\"" : String) ≠ "" := by
  exact ⟨rfl, by decide⟩

/-- Claim C7 (amended): if the trimmed argument begins and ends with the
same quote character and has length at least 2, exactly one matching pair
is removed; a trimmed argument that is a single quote character is also
stripped (to the empty string) because the source checks no minimum
length; otherwise the trimmed argument is returned unchanged — in
particular a string starting with a quote character but not ending with
that same character is not stripped. -/
theorem c7_strip_quotes_characterization (s : String) :
    (∀ (q : Char) (u : List Char), (q = '"' ∨ q = '\'') →
      trimCL s.data = q :: (u ++ [q]) → stripQuotes s = String.mk u) ∧
    (∀ q : Char, (q = '"' ∨ q = '\'') →
      trimCL s.data = [q] → stripQuotes s = "") ∧
    (¬ quotedCond (trimCL s.data) → stripQuotes s = String.mk (trimCL s.data)) := by
  refine ⟨?_, ?_, ?_⟩
  · intro q u hq ht
    have hcond : quotedCond (trimCL s.data) := by
      rw [ht, show q :: (u ++ [q]) = (q :: u) ++ [q] from rfl]
      rcases hq with rfl | rfl
      · exact Or.inl ⟨rfl, by rw [List.getLast?_concat]⟩
      · exact Or.inr ⟨rfl, by rw [List.getLast?_concat]⟩
    rw [stripQuotes, if_pos hcond, ht]
    simp [List.dropLast_concat]
  · intro q hq ht
    have hcond : quotedCond (trimCL s.data) := by
      rw [ht]
      rcases hq with rfl | rfl
      · exact Or.inl ⟨rfl, rfl⟩
      · exact Or.inr ⟨rfl, rfl⟩
    rw [stripQuotes, if_pos hcond, ht]
    rfl
  · intro hcond
    rw [stripQuotes, if_neg hcond]

/-- Witness for C7: a double-quoted word loses exactly its outer pair, a
single-quoted word likewise, and an unterminated leading quote is kept. -/
theorem c7_witness :
    stripQuotes "\"abc\"" = "abc" ∧ stripQuotes "'xy'" = "xy" ∧
    stripQuotes "\"abc" = "\"abc" := by
  refine ⟨?_, ?_, ?_⟩
  · exact ((c7_strip_quotes_characterization "\"abc\"").1 '"' ['a', 'b', 'c']
      (Or.inl rfl) rfl).trans (by rfl)
  · exact ((c7_strip_quotes_characterization "'xy'").1 '\'' ['x', 'y']
      (Or.inr rfl) rfl).trans (by rfl)
  · exact ((c7_strip_quotes_characterization "\"abc").2.2 (by decide)).trans (by rfl)

/-! ## Claim C1: the executor's quote stripping breaks `podcast save` -/

/-- Claim C1 (code bug): for the input line
`podcast save "My Show" "https://feed.example.com/rss"`, the executor
routes to the `podcast save` verb but its single-layer quote stripping of
the whole argument string removes the first and last quote characters, so
the handler receives `My Show" "https://feed.example.com/rss`; the
handler's two-argument regex rejects that string and the handler returns
the usage error — not the pair claimed.  The final conjunct shows the
regex itself accepts the unstripped argument string, pinning the failure
on the executor's stripping. -/
theorem c1_executor_breaks_podcast_save :
    findVerb podcastVerbs "podcast save \"My Show\" \"https://feed.example.com/rss\""
        = some "podcast save" ∧
    execArgs "podcast save" "podcast save \"My Show\" \"https://feed.example.com/rss\""
        = "My Show\" \"https://feed.example.com/rss" ∧
    podcastSaveCmd "My Show\" \"https://feed.example.com/rss" =
      "Error: Usage: podcast save \"<name>\" \"<feedUrl>\". Both name and URL must be quoted." ∧
    podcastSaveParse "\"My Show\" \"https://feed.example.com/rss\"" =
      some ("My Show", "https://feed.example.com/rss") := by
  refine ⟨rfl, rfl, rfl, rfl⟩

/-! ## Claim C3: GitHub backend `remove` swallows delete failures -/

/-- Claim C3 (code bug): in the GitHub backend, the whole body of
`remove` is wrapped in a catch-all `try/catch`, so a rejected
`deleteFile` call is swallowed and `remove` resolves successfully — the
claim's "a failed file deletion inside remove is never silently swallowed"
fails.  Concretely: the API oracle reports the path as an existing file
and rejects the delete, yet `remove` returns success. -/
theorem c3_remove_swallows_delete_failure :
    badDeleteApi.deleteFile "notion/datasources/A/SKILL.md" "sha-1"
        = Except.error "GitHub API failure during deleteFile" ∧
    ghRemove badDeleteApi 1 "notion/datasources/A/SKILL.md" = Except.ok () := by
  exact ⟨rfl, rfl⟩

/-- Supporting fact: the catch-all makes `remove` resolve successfully on
every API oracle — no failure of any kind propagates out of it. -/
theorem ghRemove_never_errors (api : GhApi) (fuel : Nat) (path : String) :
    ghRemove api fuel path = Except.ok () := by
  cases fuel with
  | zero => rfl
  | succ n =>
    rw [ghRemove]
    split <;> rfl

/-- Supporting fact: `writeFile` has no catch around the content write, so
a rejected `createOrUpdateFileContents` call propagates to the caller. -/
theorem ghWriteFile_propagates (api : GhApi) (path content e : String)
    (hb : api.branchOk = Except.ok ())
    (hw : ∀ sha?, api.createOrUpdate path sha? content = Except.error e) :
    ghWriteFile api path content = Except.error e := by
  simp [ghWriteFile, hb, hw, Bind.bind, Except.bind]

/-! ## Claim C4: backend selection silently falls back to local -/

/-- Claim C4 counterexample: with the remote indicator set
(`VERCEL = "1"`) but the token credential absent, the storage abstraction
selects the local backend — it raises no configuration error, contrary to
the claim. -/
theorem c4_counterexample :
    getAgentFS (Env.mk (some "1") none (some "owner/repo")) = Backend.localFS ∧
    Backend.localFS ≠ Backend.githubFS := by
  exact ⟨rfl, by decide⟩

/-- Claim C4 (amended): if the remote-deployment indicator is truthy but
the token or the repository identifier is not, `getAgentFS` silently
selects the local backend; the hard configuration error of `getConfig`
can only occur once the GitHub backend is actually invoked. -/
theorem c4_silent_local_fallback (e : Env) (_hv : envTruthy e.vercel = true)
    (hc : envTruthy e.githubToken = false ∨ envTruthy e.githubRepo = false) :
    getAgentFS e = Backend.localFS := by
  rcases hc with h | h <;> simp [getAgentFS, isVercelWithGitHub, h]

/-- Witness for C4: the concrete environment of the counterexample
satisfies the hypotheses and the fallback conclusion. -/
theorem c4_witness :
    getAgentFS (Env.mk (some "1") none (some "owner/repo")) = Backend.localFS :=
  c4_silent_local_fallback (Env.mk (some "1") none (some "owner/repo")) rfl (Or.inl rfl)

/-! ## Lemmas about the storage state -/

theorem fsReadFile_write_self (σ : FS) (p : Path) (c : FileContent) :
    fsReadFile (fsWriteFile σ p c) p = some c := by
  induction σ with
  | nil => simp [fsWriteFile, fsReadFile]
  | cons f σ ih =>
    by_cases h : f.1 = p
    · simp [fsWriteFile, h, fsReadFile]
    · simp [fsWriteFile, h, fsReadFile, ih]

theorem fsReadFile_write_ne (σ : FS) (p q : Path) (c : FileContent) (h : q ≠ p) :
    fsReadFile (fsWriteFile σ p c) q = fsReadFile σ q := by
  induction σ with
  | nil =>
    simp only [fsWriteFile, fsReadFile]
    rw [if_neg (fun h' => h h'.symm)]
  | cons f σ ih =>
    by_cases hf : f.1 = p
    · simp only [fsWriteFile, if_pos hf, fsReadFile]
      rw [if_neg (fun h' => h h'.symm), if_neg (fun h' => h (hf ▸ h'.symm))]
    · simp only [fsWriteFile, if_neg hf, fsReadFile]
      by_cases hq : f.1 = q
      · simp [hq]
      · simp [hq, ih]

theorem fsReadFile_remove_under (σ : FS) (p q : Path)
    (h : q = p ∨ pathUnder p q = true) :
    fsReadFile (fsRemove σ p) q = none := by
  induction σ with
  | nil => simp [fsRemove, fsReadFile]
  | cons f σ ih =>
    by_cases hc : f.1 = p ∨ pathUnder p f.1
    · simp only [fsRemove, if_pos hc]
      exact ih
    · simp only [fsRemove, if_neg hc, fsReadFile]
      have hfq : f.1 ≠ q := by
        intro h'
        exact hc (by rw [h']; exact h)
      rw [if_neg hfq]
      exact ih

theorem fsReadFile_remove_other (σ : FS) (p q : Path)
    (h1 : q ≠ p) (h2 : pathUnder p q = false) :
    fsReadFile (fsRemove σ p) q = fsReadFile σ q := by
  induction σ with
  | nil => simp [fsRemove]
  | cons f σ ih =>
    by_cases hc : f.1 = p ∨ pathUnder p f.1
    · have hfq : f.1 ≠ q := by
        intro h'
        rw [h'] at hc
        rcases hc with hc | hc
        · exact h1 hc
        · rw [h2] at hc; cases hc
      simp only [fsRemove, if_pos hc, fsReadFile, if_neg hfq]
      exact ih
    · simp only [fsRemove, if_neg hc, fsReadFile]
      by_cases hq : f.1 = q
      · simp [hq]
      · simp [hq, ih]

theorem fsExists_of_read (σ : FS) (p q : Path) (c : FileContent)
    (hr : fsReadFile σ q = some c) (h : q = p ∨ pathUnder p q = true) :
    fsExists σ p = true := by
  induction σ with
  | nil => simp [fsReadFile] at hr
  | cons f σ ih =>
    by_cases hq : f.1 = q
    · simp only [fsExists, List.any_cons, Bool.or_eq_true]
      left
      rcases h with rfl | h
      · simp [hq]
      · rw [hq]
        simp [h]
    · simp only [fsReadFile, if_neg hq] at hr
      simp only [fsExists, List.any_cons, Bool.or_eq_true]
      right
      exact ih hr

/-! ## Lemmas about the skill-store paths -/

theorem pathUnder_self_append (p : Path) (x : String) (rest : List String) :
    pathUnder p (p ++ x :: rest) = true := by
  induction p with
  | nil => rfl
  | cons d ds ih => simp [pathUnder, ih]

theorem childOf_self_append (dir : Path) (x : String) (rest : List String) :
    childOf dir (dir ++ x :: rest) = some x := by
  induction dir with
  | nil => rfl
  | cons d ds ih => simp [childOf, ih]

theorem draftFile_eq (n : String) :
    draftFile n = ["notion", "datasources", "_drafts", n, "SKILL.md"] := by
  simp [draftFile, draftDirOf, draftsDir, dsBase]

theorem skillPath_eq (n : String) :
    skillPath n = ["notion", "datasources", n, "SKILL.md"] := by
  simp [skillPath, datasourcePath, dsBase]

theorem draftDirOf_eq (n : String) :
    draftDirOf n = ["notion", "datasources", "_drafts", n] := by
  simp [draftDirOf, draftsDir, dsBase]

theorem pathUnder_draftDir_draftFile (n : String) :
    pathUnder (draftDirOf n) (draftFile n) = true := by
  have : draftFile n = draftDirOf n ++ "SKILL.md" :: [] := by
    simp [draftFile]
  rw [this]
  exact pathUnder_self_append _ _ _

theorem skillPath_ne_draftFile (n m : String) : skillPath n ≠ draftFile m := by
  intro h
  have := congrArg List.length h
  rw [skillPath_eq, draftFile_eq] at this
  simp at this

theorem draftFile_ne_skillPath (n m : String) : draftFile n ≠ skillPath m :=
  fun h => skillPath_ne_draftFile m n h.symm

theorem skillPath_ne_draftDirOf (n : String) : skillPath n ≠ draftDirOf n := by
  intro h
  rw [skillPath_eq, draftDirOf_eq] at h
  simp only [List.cons.injEq] at h
  obtain ⟨-, -, h1, h2, -⟩ := h
  rw [h1] at h2
  exact absurd h2 (by decide)

theorem pathUnder_draftDir_skillPath (n : String) :
    pathUnder (draftDirOf n) (skillPath n) = false := by
  rw [draftDirOf_eq, skillPath_eq]
  simp [pathUnder]

/-! ## Claim C6: commit writes the active copy before deleting the draft -/

/-- Claim C6: whenever a draft exists (truthy content), `commitSkill`
performs exactly the operation sequence [write active, remove draft], so
the active write strictly precedes the draft delete; moreover, the state
after only the first operation — an interruption point — still holds both
copies. -/
theorem c6_commit_write_before_delete (σ : FS) (n content : String)
    (h : fsReadString σ (draftFile n) = some content) (hne : content ≠ "") :
    (commitSkill σ n).2.1 =
      [FsOp.write (skillPath n) (.text content), FsOp.remove (draftDirOf n)] ∧
    fsReadString (applyOp σ (FsOp.write (skillPath n) (.text content)))
        (skillPath n) = some content ∧
    fsReadString (applyOp σ (FsOp.write (skillPath n) (.text content)))
        (draftFile n) = some content := by
  refine ⟨?_, ?_, ?_⟩
  · simp [commitSkill, h, hne]
  · simp [applyOp, fsReadString, fsReadFile_write_self, FileContent.render]
  · show fsReadString (fsWriteFile σ (skillPath n) (.text content)) (draftFile n)
        = some content
    unfold fsReadString
    rw [fsReadFile_write_ne σ (skillPath n) (draftFile n) _ (draftFile_ne_skillPath n n)]
    exact h

/-- Witness for C6 at a concrete one-draft state. -/
theorem c6_witness :
    (commitSkill [(draftFile "x", FileContent.text "hello")] "x").2.1 =
      [FsOp.write (skillPath "x") (.text "hello"), FsOp.remove (draftDirOf "x")] ∧
    fsReadString (applyOp [(draftFile "x", FileContent.text "hello")]
        (FsOp.write (skillPath "x") (.text "hello"))) (skillPath "x") = some "hello" ∧
    fsReadString (applyOp [(draftFile "x", FileContent.text "hello")]
        (FsOp.write (skillPath "x") (.text "hello"))) (draftFile "x") = some "hello" :=
  c6_commit_write_before_delete [(draftFile "x", FileContent.text "hello")] "x" "hello"
    rfl (by decide)

/-! ## Claim C9: validation strictly precedes any write -/

/-- Claim C9: staging content whose metadata block lacks the
`description` field (with `name` present), or lacks the `name` field,
performs zero storage operations, leaves the state unchanged, and returns
the error naming the missing field; a subsequent peek on an artifact with
no prior draft still reports no draft found. -/
theorem c9_validation_precedes_write (n content : String) (σ : FS) (hn0 : n ≠ "") :
    (fieldTruthy (matterData content) "name" = true →
      fieldTruthy (matterData content) "description" = false →
        (draftSkill σ n content).1 = σ ∧
        (draftSkill σ n content).2.1 = [] ∧
        (draftSkill σ n content).2.2 =
          ⟨false, "Error: Missing required frontmatter field: description"⟩ ∧
        (readDraft σ n = none →
          showDraftCmd (draftSkill σ n content).1 n =
            "Error: No draft found for \"" ++ n ++ "\".")) ∧
    (fieldTruthy (matterData content) "name" = false →
        (draftSkill σ n content).1 = σ ∧
        (draftSkill σ n content).2.1 = [] ∧
        (draftSkill σ n content).2.2 =
          ⟨false, "Error: Missing required frontmatter field: name"⟩) := by
  constructor
  · intro hname hdesc
    have hdraft : draftSkill σ n content =
        (σ, [], ⟨false, "Error: Missing required frontmatter field: description"⟩) := by
      simp [draftSkill, validateSkillContent, hname, hdesc]
    refine ⟨by rw [hdraft], by rw [hdraft], by rw [hdraft], ?_⟩
    intro hrd
    rw [hdraft]
    simp [showDraftCmd, hn0, hrd]
  · intro hname
    have hdraft : draftSkill σ n content =
        (σ, [], ⟨false, "Error: Missing required frontmatter field: name"⟩) := by
      simp [draftSkill, validateSkillContent, hname]
    exact ⟨by rw [hdraft], by rw [hdraft], by rw [hdraft]⟩

/-- Witness for C9: a content with `name` but no `description`, and a
content with no metadata block at all, staged against the empty store. -/
theorem c9_witness :
    (draftSkill [] "x" "---\nname: X\n---\nbody").1 = ([] : FS) ∧
    (draftSkill [] "x" "---\nname: X\n---\nbody").2.2 =
      ⟨false, "Error: Missing required frontmatter field: description"⟩ ∧
    showDraftCmd (draftSkill [] "x" "---\nname: X\n---\nbody").1 "x" =
      "Error: No draft found for \"x\"." ∧
    (draftSkill [] "x" "plain").2.2 =
      ⟨false, "Error: Missing required frontmatter field: name"⟩ := by
  have h := c9_validation_precedes_write "x" "---\nname: X\n---\nbody" [] (by decide)
  have h2 := c9_validation_precedes_write "x" "plain" [] (by decide)
  have ha := h.1 (by rfl) (by rfl)
  exact ⟨ha.1, ha.2.2.1, ha.2.2.2 rfl, (h2.2 (by rfl)).2.2⟩

/-! ## Claim C10: empty draft file — commit and peek fail, discard succeeds -/

/-- Claim C10: when the draft file exists but its content is the empty
string, `commitSkill` and the `notion show-draft` handler both report "No
draft found" (their precondition tests the content's truthiness) and
commit performs no operations, whereas `discardDraft` checks existence of
the draft directory, succeeds, and removes the draft. -/
theorem c10_empty_draft (n : String) (σ : FS) (hn0 : n ≠ "")
    (h : fsReadFile σ (draftFile n) = some (FileContent.text "")) :
    (commitSkill σ n).2.2 =
      ⟨false, "Error: No draft found for \"" ++ n ++ "\". Use 'notion draft' first."⟩ ∧
    (commitSkill σ n).2.1 = [] ∧
    showDraftCmd σ n = "Error: No draft found for \"" ++ n ++ "\"." ∧
    (discardDraft σ n).2.2 = ⟨true, "Draft \"" ++ n ++ "\" discarded."⟩ ∧
    readDraft (discardDraft σ n).1 n = none := by
  have hex : fsExists σ (draftDirOf n) = true :=
    fsExists_of_read σ (draftDirOf n) (draftFile n) _ h
      (Or.inr (pathUnder_draftDir_draftFile n))
  refine ⟨?_, ?_, ?_, ?_, ?_⟩
  · simp [commitSkill, fsReadString, h, FileContent.render]
  · simp [commitSkill, fsReadString, h, FileContent.render]
  · simp [showDraftCmd, hn0, readDraft, fsReadString, h, FileContent.render]
  · simp [discardDraft, hex]
  · have h1 : (discardDraft σ n).1 = fsRemove σ (draftDirOf n) := by
      simp [discardDraft, hex]
    rw [h1]
    unfold readDraft fsReadString
    rw [fsReadFile_remove_under σ (draftDirOf n) (draftFile n)
      (Or.inr (pathUnder_draftDir_draftFile n))]
    rfl

/-- Witness for C10 at the concrete state holding one empty draft file. -/
theorem c10_witness :
    (commitSkill [(draftFile "x", FileContent.text "")] "x").2.2 =
      ⟨false, "Error: No draft found for \"x\". Use 'notion draft' first."⟩ ∧
    (commitSkill [(draftFile "x", FileContent.text "")] "x").2.1 = [] ∧
    showDraftCmd [(draftFile "x", FileContent.text "")] "x" =
      "Error: No draft found for \"x\"." ∧
    (discardDraft [(draftFile "x", FileContent.text "")] "x").2.2 =
      ⟨true, "Draft \"x\" discarded."⟩ ∧
    readDraft (discardDraft [(draftFile "x", FileContent.text "")] "x").1 "x" = none := by
  have h := c10_empty_draft "x" [(draftFile "x", FileContent.text "")] (by decide) rfl
  simpa using h

/-! ## Lemmas for directory enumeration -/

theorem schemaPath_eq (n : String) :
    schemaPath n = ["notion", "datasources", n, "schema.toml"] := by
  simp [schemaPath, datasourcePath, dsBase]

theorem schemaPath_inj (a b : String) (h : schemaPath a = schemaPath b) : a = b := by
  rw [schemaPath_eq, schemaPath_eq] at h
  simpa using h

theorem childOf_dsBase (nm last : String) :
    childOf dsBase ["notion", "datasources", nm, last] = some nm := by
  simp [dsBase, childOf]

theorem pathUnder_dsBase_child (nm last : String) :
    pathUnder (dsBase ++ [nm]) ["notion", "datasources", nm, last] = true := by
  simp [dsBase, pathUnder]

theorem tomlStr_ne_empty (d : Datasource) : tomlStr d ≠ "" := by
  intro h
  have h2 : (tomlStr d).length = 0 := by rw [h]; rfl
  rw [tomlStr] at h2
  simp only [String.length_append] at h2
  have h8 : ("name = \"" : String).length = 8 := rfl
  rw [h8] at h2
  omega

theorem listDatasourceNames_singleton_skill (n : String) (c : FileContent)
    (hnd : n ≠ "_drafts") :
    listDatasourceNames [(skillPath n, c)] = [n] := by
  have h3 : childOf dsBase (skillPath n) = some n := by
    rw [skillPath_eq]; exact childOf_dsBase n "SKILL.md"
  have h2 : pathUnder (dsBase ++ [n]) (skillPath n) = true := by
    rw [skillPath_eq]; exact pathUnder_dsBase_child n "SKILL.md"
  simp [listDatasourceNames, fsReadDir, List.filterMap_cons, h3, dedupFirst,
    fsIsDir, h2, hnd]

theorem scanSkills_singleton (n content : String) (hnd : n ≠ "_drafts")
    (hc : content ≠ "")
    (hnt : fieldTruthy (matterData content) "name" = true)
    (hdt : fieldTruthy (matterData content) "description" = true) :
    scanSkills [(skillPath n, FileContent.text content)] =
      [⟨(fieldVal (matterData content) "name").getD "",
        (fieldVal (matterData content) "description").getD ""⟩] := by
  rw [scanSkills, listDatasourceNames_singleton_skill n _ hnd]
  simp [fsReadString, fsReadFile, FileContent.render, hc, hnt, hdt]

/-! ## Claim C2: stage, commit, then read and peek -/

/-- Claim C2 counterexample: the claim quantifies over every validated
content, but `notion read` looks the artifact up by the metadata `name`
field, not by the artifact name used for staging.  Staging
`"A"` with a content whose metadata name is `"B"` and committing it makes
`read("A")` return the not-found error instead of the body. -/
theorem c2_counterexample :
    notionReadCmd
        (commitSkill (draftSkill [] "A" "---\nname: B\ndescription: d\n---\nBody").1 "A").1
        "A" = "Error: Skill \"A\" not found. Available: B" ∧
    notionReadCmd
        (commitSkill (draftSkill [] "A" "---\nname: B\ndescription: d\n---\nBody").1 "A").1
        "A" ≠ strTrim (matterBody "---\nname: B\ndescription: d\n---\nBody") := by
  exact ⟨rfl, by decide⟩

/-- Claim C2 (amended): for every artifact name `n` (a nonempty directory
name other than the reserved `_drafts`) and every content passing
validation whose metadata `name` field equals `n`, staging and committing
from the empty store yields a state where `notion read n` returns the
content's body with the metadata block stripped and trimmed, and a
subsequent `notion show-draft n` reports no draft found. -/
theorem c2_commit_then_read (n content : String)
    (hn0 : n ≠ "") (hnd : n ≠ "_drafts")
    (hname : fieldVal (matterData content) "name" = some n)
    (hdesc : fieldTruthy (matterData content) "description" = true) :
    notionReadCmd (commitSkill (draftSkill [] n content).1 n).1 n
        = strTrim (matterBody content) ∧
    showDraftCmd (commitSkill (draftSkill [] n content).1 n).1 n
        = "Error: No draft found for \"" ++ n ++ "\"." ∧
    (commitSkill (draftSkill [] n content).1 n).2.2.success = true := by
  have hnt : fieldTruthy (matterData content) "name" = true := by
    rw [fieldTruthy, hname]
    simp [hn0]
  have hcne : content ≠ "" := by
    intro h
    rw [h] at hname
    have h0 : fieldVal (matterData "") "name" = none := rfl
    rw [h0] at hname
    exact Option.noConfusion hname
  have hval : validateSkillContent content = none := by
    simp [validateSkillContent, hnt, hdesc]
  have hσ1 : (draftSkill [] n content).1 = [(draftFile n, FileContent.text content)] := by
    simp [draftSkill, hval, applyOps, applyOp, fsWriteFile]
  have hread1 : fsReadString [(draftFile n, FileContent.text content)] (draftFile n)
      = some content := by
    simp [fsReadString, fsReadFile, FileContent.render]
  have hw : fsWriteFile [(draftFile n, FileContent.text content)] (skillPath n)
      (FileContent.text content) =
      [(draftFile n, FileContent.text content),
       (skillPath n, FileContent.text content)] := by
    simp [fsWriteFile, draftFile_ne_skillPath n n]
  have hrm : fsRemove
      [(draftFile n, FileContent.text content),
       (skillPath n, FileContent.text content)] (draftDirOf n) =
      [(skillPath n, FileContent.text content)] := by
    simp [fsRemove, pathUnder_draftDir_draftFile n, pathUnder_draftDir_skillPath n,
      skillPath_ne_draftDirOf n]
  have hσ2 : (commitSkill [(draftFile n, FileContent.text content)] n).1 =
      [(skillPath n, FileContent.text content)] := by
    simp [commitSkill, hread1, hcne, applyOps, applyOp, hw, hrm]
  have hscan : scanSkills [(skillPath n, FileContent.text content)] =
      [⟨n, (fieldVal (matterData content) "description").getD ""⟩] := by
    rw [scanSkills_singleton n content hnd hcne hnt hdesc, hname]
    rfl
  refine ⟨?_, ?_, ?_⟩
  · rw [hσ1, hσ2]
    simp [notionReadCmd, hn0, hscan, fsReadString, fsReadFile, FileContent.render, hcne]
  · rw [hσ1, hσ2]
    simp [showDraftCmd, hn0, readDraft, fsReadString, fsReadFile,
      skillPath_ne_draftFile n n]
  · rw [hσ1]
    simp [commitSkill, hread1, hcne]

/-- Witness for C2: the spec's concrete Reading List scenario. -/
theorem c2_witness :
    notionReadCmd
        (commitSkill (draftSkill []
          "Reading List"
          "---\nname: Reading List\ndescription: Track books\n---\nDefault status: To Read").1
          "Reading List").1 "Reading List" = "Default status: To Read" ∧
    showDraftCmd
        (commitSkill (draftSkill []
          "Reading List"
          "---\nname: Reading List\ndescription: Track books\n---\nDefault status: To Read").1
          "Reading List").1 "Reading List" =
      "Error: No draft found for \"Reading List\"." := by
  have h := c2_commit_then_read "Reading List"
    "---\nname: Reading List\ndescription: Track books\n---\nDefault status: To Read"
    (by decide) (by decide) (by rfl) (by rfl)
  exact ⟨h.1.trans (by rfl), h.2.1⟩

/-! ## Claim C5: saving a record with the same id but a new name -/

/-- Claim C5 counterexample: `saveDatasource` is keyed by the record's
name (directory), not by its id.  Saving a second record with the same id
but a different name creates a second directory: the cache enumeration
grows from one record to two records carrying the same id, instead of
replacing the first. -/
theorem c5_counterexample :
    (readDatasources (saveDatasource (saveDatasource []
        ⟨"A", "id-1", []⟩).1 ⟨"B", "id-1", []⟩).1).length = 2 ∧
    (readDatasources (saveDatasource [] (⟨"A", "id-1", []⟩ : Datasource)).1).length = 1 ∧
    ((readDatasources (saveDatasource (saveDatasource []
        ⟨"A", "id-1", []⟩).1 ⟨"B", "id-1", []⟩).1).filter
      (fun d => d.id == "id-1")).length ≠ 1 := by
  exact ⟨rfl, rfl, by decide⟩

/-- Claim C5 (amended): for records `r1`, `r2` with `r2.id = r1.id` and
`r2.name ≠ r1.name` (names being ordinary directory names), `save(r1)`
then `save(r2)` from the empty cache leaves both records in the
enumeration: `readAll()` is `[r1, r2]`, its length grows by one, and two
of its records carry the shared id — the first record is not replaced. -/
theorem c5_save_same_id_new_name (r1 r2 : Datasource)
    (hid : r2.id = r1.id) (hnames : r2.name ≠ r1.name)
    (h1 : r1.name ≠ "_drafts") (h2 : r2.name ≠ "_drafts") :
    readDatasources (saveDatasource [] r1).1 = [r1] ∧
    readDatasources (saveDatasource (saveDatasource [] r1).1 r2).1 = [r1, r2] ∧
    (readDatasources (saveDatasource (saveDatasource [] r1).1 r2).1).length =
      (readDatasources (saveDatasource [] r1).1).length + 1 ∧
    ((readDatasources (saveDatasource (saveDatasource [] r1).1 r2).1).filter
        (fun d => d.id == r1.id)).length = 2 := by
  have hσ1 : (saveDatasource [] r1).1 = [(schemaPath r1.name, FileContent.schema r1)] := by
    simp [saveDatasource, fsWriteFile]
  have hne : schemaPath r1.name ≠ schemaPath r2.name :=
    fun he => hnames (schemaPath_inj _ _ he).symm
  have hσ2 : (saveDatasource (saveDatasource [] r1).1 r2).1 =
      [(schemaPath r1.name, FileContent.schema r1),
       (schemaPath r2.name, FileContent.schema r2)] := by
    rw [hσ1]
    simp [saveDatasource, fsWriteFile, hne]
  have hchild1 : childOf dsBase (schemaPath r1.name) = some r1.name := by
    rw [schemaPath_eq]; exact childOf_dsBase _ "schema.toml"
  have hchild2 : childOf dsBase (schemaPath r2.name) = some r2.name := by
    rw [schemaPath_eq]; exact childOf_dsBase _ "schema.toml"
  have hu1 : pathUnder (dsBase ++ [r1.name]) (schemaPath r1.name) = true := by
    rw [schemaPath_eq]; exact pathUnder_dsBase_child _ "schema.toml"
  have hu2 : pathUnder (dsBase ++ [r2.name]) (schemaPath r2.name) = true := by
    rw [schemaPath_eq]; exact pathUnder_dsBase_child _ "schema.toml"
  have hrd1 : readDatasources [(schemaPath r1.name, FileContent.schema r1)] = [r1] := by
    simp [readDatasources, fsReadDir, List.filterMap_cons, hchild1, dedupFirst,
      fsIsDir, hu1, h1, readDatasourceSchema, fsReadFile, FileContent.render,
      tomlStr_ne_empty, tomlParseFC]
  have hrd2 : readDatasources
      [(schemaPath r1.name, FileContent.schema r1),
       (schemaPath r2.name, FileContent.schema r2)] = [r1, r2] := by
    simp [readDatasources, fsReadDir, List.filterMap_cons, hchild1, hchild2,
      dedupFirst, hnames, fsIsDir, hu1, hu2, h1, h2, readDatasourceSchema,
      fsReadFile, FileContent.render, tomlStr_ne_empty, tomlParseFC, hne]
  refine ⟨hσ1 ▸ hrd1, hσ2 ▸ hrd2, ?_, ?_⟩
  · rw [hσ2, hσ1, hrd1, hrd2]
    rfl
  · rw [hσ2, hrd2]
    simp [hid]

/-- Witness for C5 at two concrete records sharing one id. -/
theorem c5_witness :
    readDatasources (saveDatasource [] (⟨"Tasks", "id-9", []⟩ : Datasource)).1 =
      [⟨"Tasks", "id-9", []⟩] ∧
    readDatasources (saveDatasource (saveDatasource []
        (⟨"Tasks", "id-9", []⟩ : Datasource)).1 ⟨"Projects", "id-9", []⟩).1 =
      [⟨"Tasks", "id-9", []⟩, ⟨"Projects", "id-9", []⟩] := by
  have h := c5_save_same_id_new_name ⟨"Tasks", "id-9", []⟩ ⟨"Projects", "id-9", []⟩
    rfl (by decide) (by decide) (by decide)
  exact ⟨h.1, h.2.1⟩

end NotionAgent
